import Mathlib

/-!
Verification development for the skywatch-tail ingestion-and-hydration
pipeline.  The TypeScript sources are shallowly embedded: each repository,
queue and processor method becomes an executable Lean function over an
explicit state (the database tables become lists of rows, the network
becomes an explicit environment of functions), and the spec's testable
properties are proved or refuted against those functions.
-/

namespace Skywatch

/-! ## Label events and the labels repository

From `src/database/labels.repository.ts` and the `labels` table of
`src/database/schema.ts` (`UNIQUE(uri, val, cts)`).  `insert` issues
`INSERT ... ON CONFLICT (uri, val, cts) DO NOTHING`, passing
`label.cid || null`, `label.neg || false`, `label.exp || null` for the
optional fields.  JavaScript `x || null` maps the empty string to null,
which `normStr` reproduces. -/

/-- The `Label` interface of `labels.repository.ts` (the `id` column is
assigned by the database sequence and omitted from the row model). -/
structure Label where
  uri : String
  cid : Option String := none
  val : String
  neg : Option Bool := none
  cts : String
  exp : Option String := none
  src : String
deriving DecidableEq, Repr

/-- A stored row of the `labels` table, after the `|| null` / `|| false`
coercions applied by `LabelsRepository.insert`. -/
structure LabelRow where
  uri : String
  cid : Option String
  val : String
  neg : Bool
  cts : String
  exp : Option String
  src : String
deriving DecidableEq, Repr

/-- JavaScript `s || null` on an optional string: `undefined` and `""` both
become null. -/
def normStr : Option String → Option String
  | some "" => none
  | some s => some s
  | none => none

/-- The row actually bound by `stmt.run` in `LabelsRepository.insert`. -/
def Label.toRow (l : Label) : LabelRow :=
  { uri := l.uri
    cid := normStr l.cid
    val := l.val
    neg := l.neg.getD false
    cts := l.cts
    exp := normStr l.exp
    src := l.src }

/-- The labels table. -/
abbrev LabelsTable := List LabelRow

/-- Does a row with the `UNIQUE(uri, val, cts)` key of `l` exist? -/
def labelsHasKey (s : LabelsTable) (uri val cts : String) : Bool :=
  s.any fun r => r.uri = uri ∧ r.val = val ∧ r.cts = cts

/-- `LabelsRepository.insert`: `INSERT INTO labels ... ON CONFLICT
(uri, val, cts) DO NOTHING`. -/
def labelsInsert (s : LabelsTable) (l : Label) : LabelsTable :=
  if labelsHasKey s l.uri l.val l.cts then s else s ++ [l.toRow]

lemma labelsHasKey_append_self (s : LabelsTable) (l : Label) :
    labelsHasKey (s ++ [l.toRow]) l.uri l.val l.cts = true := by
  simp [labelsHasKey, List.any_append, Label.toRow]

lemma labelsHasKey_after_insert (s : LabelsTable) (l : Label) :
    labelsHasKey (labelsInsert s l) l.uri l.val l.cts = true := by
  unfold labelsInsert
  by_cases h : labelsHasKey s l.uri l.val l.cts
  · simp [h]
  · simp [h, labelsHasKey_append_self]

/-- **C1.** Re-delivering a label event with the same `(uri, val, cts)`
triple is a no-op: the second `LabelsRepository.insert` leaves the labels
table exactly as it was after the first insert (in particular the
originally stored row's fields are untouched). -/
theorem labels_insert_idempotent_on_key (s : LabelsTable) (l₁ l₂ : Label)
    (huri : l₂.uri = l₁.uri) (hval : l₂.val = l₁.val) (hcts : l₂.cts = l₁.cts) :
    labelsInsert (labelsInsert s l₁) l₂ = labelsInsert s l₁ := by
  have h := labelsHasKey_after_insert s l₁
  unfold labelsInsert at h ⊢
  rw [huri, hval, hcts]
  simp [h]

/-- Witness for C1: a concrete redelivery (same triple, even with a
different `cid` payload) leaves the single stored row unchanged. -/
theorem labels_insert_idempotent_on_key_witness :
    labelsInsert (labelsInsert []
        { uri := "at://did:plc:user/app.bsky.feed.post/abc", val := "spam",
          cts := "2025-01-15T12:00:00Z", src := "did:plc:labeler" })
        { uri := "at://did:plc:user/app.bsky.feed.post/abc", val := "spam",
          cts := "2025-01-15T12:00:00Z", src := "did:plc:labeler",
          cid := some "bafyother" }
      = labelsInsert []
        { uri := "at://did:plc:user/app.bsky.feed.post/abc", val := "spam",
          cts := "2025-01-15T12:00:00Z", src := "did:plc:labeler" } :=
  labels_insert_idempotent_on_key _ _ _ rfl rfl rfl

/-! ## The hydration queue

From `HydrationQueue` in `src/hydration/queue.ts` and its consumer in
`src/index.ts`.  `enqueue` drops a task when an equal `(type, identifier)`
task is in `queue` or is the current `processingTask`; otherwise it pushes
and, if not `processing`, runs `processNext` synchronously.  `processNext`
on a non-empty queue shifts the head, marks it as `processingTask`, emits
the `"task"` event (which starts the async handler registered in
`index.ts`) and schedules a `setTimeout` callback; that callback fires
independently of the handler: it clears `processingTask` and calls
`processNext` again.  On an empty queue `processNext` sets
`processing := false`.

The embedding makes the scheduler's interleaving explicit: an `.adv`
event is a pending `setTimeout` callback firing, and a `.done t` event is
the async `"task"` listener for `t` returning.  `running` records the
handlers that have been started and have not yet returned, and `emitted`
records every dispatch in order; both are observations, not fields of the
TypeScript object. -/

/-- The `HydrationTask` interface: `{type: "post" | "profile", identifier}`. -/
structure HydrationTask where
  type : Bool  -- `true` for "post", `false` for "profile"
  identifier : String
deriving DecidableEq, Repr

/-- The state of a `HydrationQueue` together with the scheduler
observations described above. -/
structure QueueState where
  queue : List HydrationTask
  processing : Bool
  processingTask : Option HydrationTask
  pendingTimeouts : Nat
  running : List HydrationTask
  emitted : List HydrationTask
deriving DecidableEq, Repr

/-- A freshly constructed `HydrationQueue`. -/
def QueueState.init : QueueState :=
  { queue := [], processing := false, processingTask := none,
    pendingTimeouts := 0, running := [], emitted := [] }

/-- `processNext`: idle out on an empty queue, otherwise shift the head,
emit it (starting its handler) and schedule the advance timeout. -/
def processNext (s : QueueState) : QueueState :=
  match s.queue with
  | [] => { s with processing := false }
  | t :: rest =>
      { s with queue := rest, processing := true, processingTask := some t,
               pendingTimeouts := s.pendingTimeouts + 1,
               running := s.running ++ [t], emitted := s.emitted ++ [t] }

/-- `enqueue`: dedup against the queue, then against the in-flight
`processingTask`, then push and kick `processNext` when idle. -/
def enqueueTask (s : QueueState) (t : HydrationTask) : QueueState :=
  if t ∈ s.queue then s
  else if s.processingTask = some t then s
  else
    let s' := { s with queue := s.queue ++ [t] }
    if s.processing then s' else processNext s'

/-- Scheduler events: `enq` is a call to `enqueue`, `adv` is a pending
`setTimeout` callback firing (clear `processingTask`, `processNext`),
`done t` is the async task handler for `t` returning. -/
inductive QEvent where
  | enq (t : HydrationTask)
  | adv
  | done (t : HydrationTask)
deriving DecidableEq, Repr

/-- One scheduler step. -/
def queueStep (s : QueueState) : QEvent → QueueState
  | .enq t => enqueueTask s t
  | .adv =>
      if s.pendingTimeouts = 0 then s
      else processNext { s with processingTask := none,
                                pendingTimeouts := s.pendingTimeouts - 1 }
  | .done t =>
      if t ∈ s.running then { s with running := s.running.erase t } else s

/-- Run a sequence of scheduler events. -/
def runQueue (s : QueueState) : List QEvent → QueueState
  | [] => s
  | e :: es => runQueue (queueStep s e) es

/-- **C2 counterexample.** "Exactly one execution" fails once the 100 ms
advance timer has cleared `processingTask`: from the initial state,
after `enqueue A` and the timer callback, A's handler is still running
(no completion event occurs in the trace), yet a second `enqueue A`
passes both dedup checks and dispatches the handler again — two
executions for a re-enqueue that arrived while the first was in
flight. -/
theorem enqueue_dedup_window_two_executions :
    ((runQueue QueueState.init
        [.enq ⟨true, "at://did:plc:u/app.bsky.feed.post/1"⟩, .adv,
         .enq ⟨true, "at://did:plc:u/app.bsky.feed.post/1"⟩]).emitted
      = [⟨true, "at://did:plc:u/app.bsky.feed.post/1"⟩,
         ⟨true, "at://did:plc:u/app.bsky.feed.post/1"⟩]) ∧
    ((runQueue QueueState.init
        [.enq ⟨true, "at://did:plc:u/app.bsky.feed.post/1"⟩, .adv]).running
      = [⟨true, "at://did:plc:u/app.bsky.feed.post/1"⟩]) := by
  decide

/-- **C2 (amended).** Dispatcher dedup, as far as the code tracks it:
`enqueue` of a task that is already queued or is the current
`processingTask` is a no-op (the state, including the dispatch history,
is unchanged), so enqueueing the same task twice in a row from the
initial state dispatches its handler exactly once.  `processingTask` is
cleared by the 100 ms advance timer rather than by handler completion,
so this covers a re-enqueue only until that timer fires — afterwards the
handler can be dispatched again (see the counterexample). -/
theorem enqueue_dedup_noop (s : QueueState) (t : HydrationTask)
    (h : t ∈ s.queue ∨ s.processingTask = some t) :
    enqueueTask s t = s ∧
      ∀ u : HydrationTask,
        (runQueue QueueState.init [.enq u, .enq u]).emitted = [u] := by
  constructor
  · unfold enqueueTask
    rcases h with h | h
    · simp [h]
    · by_cases hq : t ∈ s.queue <;> simp [hq, h]
  · intro u
    simp [runQueue, queueStep, enqueueTask, processNext, QueueState.init]

/-- Witness for C2: enqueueing a task equal to the in-flight one is
dropped. -/
theorem enqueue_dedup_noop_witness :
    enqueueTask
        { queue := [], processing := true,
          processingTask := some ⟨true, "at://did:plc:u/app.bsky.feed.post/1"⟩,
          pendingTimeouts := 1,
          running := [⟨true, "at://did:plc:u/app.bsky.feed.post/1"⟩],
          emitted := [⟨true, "at://did:plc:u/app.bsky.feed.post/1"⟩] }
        ⟨true, "at://did:plc:u/app.bsky.feed.post/1"⟩
      = { queue := [], processing := true,
          processingTask := some ⟨true, "at://did:plc:u/app.bsky.feed.post/1"⟩,
          pendingTimeouts := 1,
          running := [⟨true, "at://did:plc:u/app.bsky.feed.post/1"⟩],
          emitted := [⟨true, "at://did:plc:u/app.bsky.feed.post/1"⟩] } :=
  (enqueue_dedup_noop _ _ (Or.inr rfl)).1

/-- **C3 counterexample.** The dispatcher is *not* sequential with respect
to handler completion: from the initial state, after `enqueue A`,
`enqueue B` and one `setTimeout` callback firing — with neither handler
having returned — both handlers are running at once.  The 100 ms timeout
in `processNext` dequeues the next task without waiting for the current
handler to finish. -/
theorem dispatcher_concurrent_handlers :
    (runQueue QueueState.init
        [.enq ⟨true, "at://did:plc:u/app.bsky.feed.post/1"⟩,
         .enq ⟨false, "did:plc:v"⟩, .adv]).running
      = [⟨true, "at://did:plc:u/app.bsky.feed.post/1"⟩, ⟨false, "did:plc:v"⟩] := by
  simp [runQueue, queueStep, enqueueTask, processNext, QueueState.init]

/-- **C3 (amended).** Tasks are dequeued in FIFO order by the timeout
callback: an `adv` on a non-empty queue dispatches exactly the head and
keeps the tail; an `adv` on an empty queue idles the dispatcher
(`processing := false`, nothing dispatched); and an `enqueue` on an idle
dispatcher dispatches the new task immediately.  (The dequeue is driven by
the 100 ms timeout, not by handler completion, so handlers may overlap —
see the counterexample.) -/
theorem dispatcher_fifo_idle_resume (s : QueueState) (t : HydrationTask)
    (rest : List HydrationTask) :
    (s.pendingTimeouts ≠ 0 → s.queue = t :: rest →
        (queueStep s .adv).emitted = s.emitted ++ [t] ∧
        (queueStep s .adv).queue = rest ∧
        (queueStep s .adv).processingTask = some t) ∧
    (s.pendingTimeouts ≠ 0 → s.queue = [] →
        (queueStep s .adv).processing = false ∧
        (queueStep s .adv).emitted = s.emitted) ∧
    (s.processing = false → s.queue = [] → s.processingTask = none →
        (queueStep s (.enq t)).emitted = s.emitted ++ [t] ∧
        (queueStep s (.enq t)).processing = true) := by
  refine ⟨fun hp hq => ?_, fun hp hq => ?_, fun hpr hq hpt => ?_⟩
  · simp [queueStep, hp, processNext, hq]
  · simp [queueStep, hp, processNext, hq]
  · simp [queueStep, enqueueTask, hq, hpt, hpr, processNext]

/-- Witness for the amended C3: from a busy state with `B` queued, the
timeout callback dispatches `B` (FIFO head), and an idle queue resumes on
enqueue. -/
theorem dispatcher_fifo_idle_resume_witness :
    ((queueStep
        { queue := [⟨false, "did:plc:v"⟩], processing := true,
          processingTask := some ⟨true, "at://did:plc:u/app.bsky.feed.post/1"⟩,
          pendingTimeouts := 1,
          running := [⟨true, "at://did:plc:u/app.bsky.feed.post/1"⟩],
          emitted := [⟨true, "at://did:plc:u/app.bsky.feed.post/1"⟩] } .adv).emitted
      = [⟨true, "at://did:plc:u/app.bsky.feed.post/1"⟩, ⟨false, "did:plc:v"⟩]) ∧
    ((queueStep QueueState.init (.enq ⟨false, "did:plc:v"⟩)).processing = true) := by
  refine ⟨((dispatcher_fifo_idle_resume _ ⟨false, "did:plc:v"⟩ []).1 (by decide) rfl).1, ?_⟩
  exact ((dispatcher_fifo_idle_resume QueueState.init ⟨false, "did:plc:v"⟩ []).2.2
    rfl rfl rfl).2

/-! ## Firehose decoder and the subscriber's message handler

From `src/firehose/decoder.ts` (`extractLabelFromMessage`,
`validateLabel`), `src/firehose/filter.ts` (`LabelFilter.shouldCapture`)
and the `"message"` handler of `FirehoseSubscriber.connect`.  A decoded
frame is modelled after CBOR decoding: `op`, an optional type tag `t`, the
`labels` array and an optional `seq`.  The handler emits the extracted
label downstream and then, if `message.seq` is truthy, writes the cursor
file. -/

/-- A label event as decoded from the wire (`LabelEvent` in
`decoder.ts`; the unverified `sig` and `ver` fields are dropped). -/
structure WireLabel where
  src : String
  uri : String
  cid : Option String := none
  val : String
  neg : Option Bool := none
  cts : String
  exp : Option String := none
deriving DecidableEq, Repr

/-- A decoded firehose frame (`FirehoseMessage` in `decoder.ts`), with the
fields the message handler reads. -/
structure FirehoseMessage where
  op : Int
  t : Option String := none
  labels : List WireLabel := []
  seq : Option Int := none
deriving DecidableEq, Repr

/-- `extractLabelFromMessage`: requires `op === 1` and `t === "#labels"`,
and returns only `labels[0]` of a non-empty labels array. -/
def extractLabelFromMessage (m : FirehoseMessage) : Option WireLabel :=
  if m.op ≠ 1 then none
  else if m.t ≠ some "#labels" then none
  else m.labels.head?

/-- `validateLabel`: the required fields must be truthy (non-empty). -/
def validateLabel (l : WireLabel) : Bool :=
  l.src ≠ "" ∧ l.uri ≠ "" ∧ l.val ≠ "" ∧ l.cts ≠ ""

/-- `LabelFilter.shouldCapture`: an absent or empty allow-list captures
everything, otherwise membership of `val`. -/
def shouldCapture (allowedLabels : Option (List String)) (l : WireLabel) : Bool :=
  match allowedLabels with
  | none => true
  | some labels => if labels.isEmpty then true else l.val ∈ labels

/-- The `LabelFilter` constructor turns a missing or empty configured list
into the capture-all filter (`allowedLabels = null`). -/
def mkLabelFilter (captureLabels : Option (List String)) : Option (List String) :=
  match captureLabels with
  | none => none
  | some ls => if ls.isEmpty then none else some ls

/-- The subscriber's `"message"` handler for one decoded frame: returns
the labels handed downstream (in order, before any cursor write) and the
cursor value written afterwards, if any.  `#info` frames, frames without
an extractable label, invalid labels and filtered labels all return
early, before the cursor write. -/
def handleFrame (filter : Option (List String)) (m : FirehoseMessage) :
    List WireLabel × Option Int :=
  if m.t = some "#info" then ([], none)
  else
    match extractLabelFromMessage m with
    | none => ([], none)
    | some l =>
        if ¬ validateLabel l then ([], none)
        else if ¬ shouldCapture filter l then ([], none)
        else ([l], match m.seq with
                   | some n => if n = 0 then none else some n
                   | none => none)

/-- **C4 (code bug).** A frame carrying two label events loses the second
one: the handler hands only `labels[0]` downstream yet commits the frame's
cursor, so a restart replaying from the committed cursor skips the second
event.  Concretely, for a `#labels` frame with `seq = 7` and two valid
events, the handler emits exactly the first and writes cursor 7, even
though the second event is carried by the frame, differs from the first,
and was never emitted. -/
theorem frame_second_label_lost :
    let l₁ : WireLabel :=
      { src := "did:plc:labeler", uri := "at://did:plc:u/app.bsky.feed.post/1",
        val := "spam", cts := "2025-01-15T12:00:00Z" }
    let l₂ : WireLabel :=
      { src := "did:plc:labeler", uri := "at://did:plc:u/app.bsky.feed.post/2",
        val := "spam", cts := "2025-01-15T12:00:01Z" }
    let m : FirehoseMessage := { op := 1, t := some "#labels", labels := [l₁, l₂], seq := some 7 }
    handleFrame (mkLabelFilter none) m = ([l₁], some 7) ∧
      l₂ ∈ m.labels ∧ l₂ ∉ (handleFrame (mkLabelFilter none) m).1 := by
  refine ⟨rfl, by decide, by decide⟩

/-! ## The blob processor

From `src/blobs/processor.ts` (the revision with `resolvePds` and the
`extractCid` helper), `src/database/blobs.repository.ts`, the `blobs`
table of `schema.ts` (`PRIMARY KEY (post_uri, blob_cid)`), the
`computeBlobHashes` hasher and `src/config/index.ts`.

The network and the hash functions are an explicit environment:
`resolvePds` is the PLC lookup (`none` covers a failed response, a missing
`#atproto_pds` service and a thrown fetch — all return null), `fetchBlob`
is `com.atproto.sync.getBlob` (`none` covers `!response.ok` and a thrown
fetch: either way the blob is skipped and siblings continue), `phashOf`
is the perceptual hasher (`none` = it threw), and `storeBlob` is the
configured storage backend's `store`.  The constructor creates `storage`
exactly when `config.blobs.hydrateBlobs` is set, so the later
`this.storage && config.blobs.hydrateBlobs` test reduces to the switch
itself.  Counts of resolution and byte-fetch calls are returned alongside
the table. -/

/-- The `BlobReference` interface of `processor.ts`. -/
structure BlobReference where
  cid : String
  mimeType : Option String := none
deriving DecidableEq, Repr

/-- The `Blob` interface of `blobs.repository.ts` (insert argument). -/
structure Blob where
  post_uri : String
  blob_cid : String
  sha256 : String
  phash : Option String := none
  storage_path : Option String := none
  mimetype : Option String := none
deriving DecidableEq, Repr

/-- A stored row of the `blobs` table (optional columns after the
`|| null` coercions of `BlobsRepository.insert`). -/
structure BlobRow where
  post_uri : String
  blob_cid : String
  sha256 : String
  phash : Option String
  storage_path : Option String
  mimetype : Option String
deriving DecidableEq, Repr

abbrev BlobsTable := List BlobRow

/-- The row bound by `stmt.run` in `BlobsRepository.insert`. -/
def Blob.toRow (b : Blob) : BlobRow :=
  { post_uri := b.post_uri, blob_cid := b.blob_cid, sha256 := b.sha256,
    phash := normStr b.phash, storage_path := normStr b.storage_path,
    mimetype := normStr b.mimetype }

/-- `BlobsRepository.insert`: `INSERT ... ON CONFLICT (post_uri, blob_cid)
DO UPDATE SET sha256/phash/storage_path/mimetype = EXCLUDED...`. -/
def blobsInsert (s : BlobsTable) (b : Blob) : BlobsTable :=
  if s.any fun r => r.post_uri = b.post_uri ∧ r.blob_cid = b.blob_cid then
    s.map fun r =>
      if r.post_uri = b.post_uri ∧ r.blob_cid = b.blob_cid then
        { r with sha256 := b.sha256, phash := normStr b.phash,
                 storage_path := normStr b.storage_path,
                 mimetype := normStr b.mimetype }
      else r
  else s ++ [b.toRow]

/-- `BlobsRepository.findByCid`: `SELECT * FROM blobs WHERE blob_cid = $1
LIMIT 1`. -/
def findByCid (s : BlobsTable) (cid : String) : Option BlobRow :=
  s.find? fun r => r.blob_cid = cid

/-- Is `pat` a leading segment of `l`?  (JavaScript `startsWith`, over
character lists so the kernel can evaluate it.) -/
def charsLeads : List Char → List Char → Bool
  | [], _ => true
  | _ :: _, [] => false
  | a :: ps, b :: ls => a == b && charsLeads ps ls

/-- JavaScript `includes`. -/
def charsContains (pat : List Char) : List Char → Bool
  | [] => charsLeads pat []
  | c :: rest => charsLeads pat (c :: rest) || charsContains pat rest

/-- JavaScript `split(sep)` for a non-empty separator, accumulating the
current segment in reverse. -/
def splitCharsGo (sep : List Char) : List Char → List Char → List (List Char)
  | acc, [] => [acc.reverse]
  | acc, c :: rest =>
      if h : sep ≠ [] ∧ charsLeads sep (c :: rest) = true then
        acc.reverse :: splitCharsGo sep [] ((c :: rest).drop sep.length)
      else splitCharsGo sep (c :: acc) rest
termination_by acc l => l.length
decreasing_by
  · simp only [List.length_drop, List.length_cons]
    have hsep : 0 < sep.length := List.length_pos.mpr h.1
    omega
  · simp only [List.length_cons]
    omega

/-- JavaScript `s.split(sep)`. -/
def splitChars (sep l : List Char) : List (List Char) := splitCharsGo sep [] l

/-- JavaScript `s.replace(pat, "")`: removes the first occurrence only. -/
def removeFirstChars (pat : List Char) : List Char → List Char
  | [] => []
  | c :: rest =>
      if pat ≠ [] ∧ charsLeads pat (c :: rest) = true then (c :: rest).drop pat.length
      else c :: removeFirstChars pat rest

/-- `parseBlobUri`, reduced to the `did` component it extracts: a
`profile://did/(avatar|banner)` URI yields the did; anything else falls
through to `uri.replace("at://", "").split("/")` destructured as
`[, did]`, i.e. the segment at index 1 (JavaScript yields `undefined`
when the segment is absent). -/
def parseBlobUriDid (uri : String) : String :=
  let fallback := String.mk
    ((splitChars "/".data (removeFirstChars "at://".data uri.data)).getD 1 "undefined".data)
  if charsLeads "profile://".data uri.data then
    match splitChars "/".data (uri.data.drop 10) with
    | [did, t] =>
        if (t = "avatar".data ∨ t = "banner".data) ∧ did ≠ [] then String.mk did
        else fallback
    | _ => fallback
  else fallback

/-- The network, hashing and storage collaborators of the processor. -/
structure BlobEnv where
  /-- PLC lookup of the DID document's `#atproto_pds` service endpoint. -/
  resolvePds : String → Option String
  /-- `com.atproto.sync.getBlob` at (endpoint, did, cid). -/
  fetchBlob : String → String → String → Option (List Nat)
  /-- `computeSha256` (hex digest of the bytes). -/
  sha256 : List Nat → String
  /-- `computePerceptualHash`; `none` when it throws. -/
  phashOf : List Nat → Option String
  /-- The storage backend's `store(cid, data, mimeType)` locator. -/
  storeBlob : String → List Nat → Option String → String

/-- Does the mimetype contain `"svg"`? (`mimetype.includes("svg")`). -/
def mimeHasSvg (m : String) : Bool := charsContains "svg".data m.data

/-- `computeBlobHashes`: always the sha256; the perceptual hash only for
non-svg `image/*` mimetypes, and its failure degrades to sha-only. -/
def computeBlobHashes (env : BlobEnv) (bytes : List Nat)
    (mimetype : Option String) : String × Option String :=
  let sha := env.sha256 bytes
  match mimetype with
  | some m =>
      if charsLeads "image/".data m.data ∧ ¬ mimeHasSvg m then (sha, env.phashOf bytes)
      else (sha, none)
  | none => (sha, none)

/-- How many `resolvePds` and byte-fetch network calls a processing step
performed. -/
structure BlobCounts where
  resolves : Nat := 0
  fetches : Nat := 0
deriving DecidableEq, Repr

/-- `BlobProcessor.processBlob`: dedup on `findByCid`, else resolve the
PDS, fetch the bytes, conditionally store them, hash, and upsert the
row.  A resolution or fetch failure leaves the table unchanged. -/
def processBlob (env : BlobEnv) (hydrateBlobs : Bool) (s : BlobsTable)
    (postUri : String) (ref : BlobReference) : BlobsTable × BlobCounts :=
  match findByCid s ref.cid with
  | some existing =>
      (blobsInsert s
        { post_uri := postUri, blob_cid := ref.cid, sha256 := existing.sha256,
          phash := existing.phash, storage_path := existing.storage_path,
          mimetype := existing.mimetype }, {})
  | none =>
      let did := parseBlobUriDid postUri
      match env.resolvePds did with
      | none => (s, { resolves := 1 })
      | some pds =>
          match env.fetchBlob pds did ref.cid with
          | none => (s, { resolves := 1, fetches := 1 })
          | some bytes =>
              let storagePath : Option String :=
                if hydrateBlobs then some (env.storeBlob ref.cid bytes ref.mimeType)
                else none
              let hashes := computeBlobHashes env bytes ref.mimeType
              (blobsInsert s
                { post_uri := postUri, blob_cid := ref.cid, sha256 := hashes.1,
                  phash := hashes.2, storage_path := storagePath,
                  mimetype := ref.mimeType },
               { resolves := 1, fetches := 1 })

/-- `BlobProcessor.processBlobs` over an already-extracted reference
list: each reference is processed in order, with per-reference failures
isolated by the `try`/`catch` in the loop. -/
def processBlobsRefs (env : BlobEnv) (hydrateBlobs : Bool) (s : BlobsTable)
    (postUri : String) : List BlobReference → BlobsTable × BlobCounts
  | [] => (s, {})
  | r :: rs =>
      let step := processBlob env hydrateBlobs s postUri r
      let rest := processBlobsRefs env hydrateBlobs step.1 postUri rs
      (rest.1, { resolves := step.2.resolves + rest.2.resolves,
                 fetches := step.2.fetches + rest.2.fetches })

/-- `loadConfig` computes `hydrateBlobs` as
`process.env.HYDRATE_BLOBS === "true"` (the zod default is `false`). -/
def parseHydrateBlobs (envVar : Option String) : Bool :=
  envVar = some "true"

/-! ### Lemmas about the blobs table -/

lemma normStr_idem (o : Option String) : normStr (normStr o) = normStr o := by
  rcases o with _ | s
  · rfl
  · by_cases h : s = "" <;> simp [normStr, h]

lemma findByCid_none_no_key (s : BlobsTable) (cid : String)
    (h : findByCid s cid = none) : ∀ x ∈ s, x.blob_cid ≠ cid := by
  intro x hx
  have := (List.find?_eq_none.mp h) x hx
  simpa using this

lemma blobsInsert_append (s : BlobsTable) (b : Blob)
    (h : ∀ x ∈ s, ¬ (x.post_uri = b.post_uri ∧ x.blob_cid = b.blob_cid)) :
    blobsInsert s b = s ++ [b.toRow] := by
  unfold blobsInsert
  have hany : (s.any fun r => r.post_uri = b.post_uri ∧ r.blob_cid = b.blob_cid) = false := by
    simp only [List.any_eq_false]
    intro x hx
    simpa using h x hx
  have hne : ¬ ((s.any fun r => r.post_uri = b.post_uri ∧ r.blob_cid = b.blob_cid) = true) := by
    rw [hany]
    exact Bool.false_ne_true
  rw [if_neg hne]

lemma list_map_id_of {α : Type _} (l : List α) (f : α → α)
    (h : ∀ x ∈ l, f x = x) : l.map f = l := by
  induction l with
  | nil => rfl
  | cons a t ih =>
      simp only [List.map_cons, h a (by simp), List.cons.injEq, true_and]
      exact ih fun x hx => h x (by simp [hx])

/-- Re-upserting the values a stored row already carries is a no-op,
provided the stored optional columns are already normalized and every
row matching the key equals that row. -/
lemma blobsInsert_self_copy (s : BlobsTable) (row : BlobRow)
    (hnorm : normStr row.phash = row.phash ∧
             normStr row.storage_path = row.storage_path ∧
             normStr row.mimetype = row.mimetype)
    (hmem : row ∈ s)
    (hvals : ∀ x ∈ s, x.post_uri = row.post_uri → x.blob_cid = row.blob_cid → x = row) :
    blobsInsert s
      { post_uri := row.post_uri, blob_cid := row.blob_cid, sha256 := row.sha256,
        phash := row.phash, storage_path := row.storage_path,
        mimetype := row.mimetype } = s := by
  unfold blobsInsert
  have hany : (s.any fun r => r.post_uri = row.post_uri ∧ r.blob_cid = row.blob_cid) = true := by
    simp only [List.any_eq_true]
    exact ⟨row, hmem, by simp⟩
  rw [if_pos hany]
  apply list_map_id_of
  intro x hx
  by_cases hk : x.post_uri = row.post_uri ∧ x.blob_cid = row.blob_cid
  · have hxr : x = row := hvals x hx hk.1 hk.2
    subst hxr
    rw [if_pos hk]
    rw [hnorm.1, hnorm.2.1, hnorm.2.2]
  · rw [if_neg hk]

/-- Every row of `blobsInsert s b` is either an untouched row of `s` whose
key differs from `b`'s, or carries `b`'s key and `b`'s (normalized)
values. -/
lemma mem_blobsInsert (s : BlobsTable) (b : Blob) (y : BlobRow)
    (hy : y ∈ blobsInsert s b) :
    (y ∈ s ∧ ¬ (y.post_uri = b.post_uri ∧ y.blob_cid = b.blob_cid)) ∨
    (y.post_uri = b.post_uri ∧ y.blob_cid = b.blob_cid ∧ y.sha256 = b.sha256 ∧
      y.phash = normStr b.phash ∧ y.storage_path = normStr b.storage_path ∧
      y.mimetype = normStr b.mimetype) := by
  unfold blobsInsert at hy
  by_cases hany : (s.any fun r => r.post_uri = b.post_uri ∧ r.blob_cid = b.blob_cid) = true
  · rw [if_pos hany] at hy
    obtain ⟨x, hx, hfx⟩ := List.mem_map.mp hy
    by_cases hk : x.post_uri = b.post_uri ∧ x.blob_cid = b.blob_cid
    · right
      rw [if_pos hk] at hfx
      subst hfx
      exact ⟨hk.1, hk.2, rfl, rfl, rfl, rfl⟩
    · left
      rw [if_neg hk] at hfx
      subst hfx
      exact ⟨hx, hk⟩
  · rw [if_neg hany] at hy
    have hall : ∀ x ∈ s, ¬ (x.post_uri = b.post_uri ∧ x.blob_cid = b.blob_cid) := by
      have hf : (s.any fun r => r.post_uri = b.post_uri ∧ r.blob_cid = b.blob_cid) = false := by
        simpa using hany
      intro x hx
      have := List.any_eq_false.mp hf x hx
      simpa using this
    rcases List.mem_append.mp hy with hy' | hy'
    · exact Or.inl ⟨hy', hall y hy'⟩
    · right
      have hyb : y = b.toRow := by simpa using hy'
      subst hyb
      exact ⟨rfl, rfl, rfl, rfl, rfl, rfl⟩

/-- Invariant: any two rows sharing a content identifier carry identical
cryptographic and similarity fingerprints (§3 "Blob Record"). -/
def cidConsistent (s : BlobsTable) : Prop :=
  ∀ r₁ ∈ s, ∀ r₂ ∈ s, r₁.blob_cid = r₂.blob_cid →
    r₁.sha256 = r₂.sha256 ∧ r₁.phash = r₂.phash

/-- Invariant: stored optional columns are normalized (they went through
the `|| null` coercion of `BlobsRepository.insert`). -/
def normedTable (s : BlobsTable) : Prop :=
  ∀ r ∈ s, normStr r.phash = r.phash ∧ normStr r.storage_path = r.storage_path ∧
    normStr r.mimetype = r.mimetype

lemma blobsInsert_preserves (s : BlobsTable) (b : Blob)
    (hc : cidConsistent s) (hn : normedTable s)
    (hcond : ∀ x ∈ s, x.blob_cid = b.blob_cid →
      x.sha256 = b.sha256 ∧ x.phash = normStr b.phash) :
    cidConsistent (blobsInsert s b) ∧ normedTable (blobsInsert s b) := by
  constructor
  · intro y₁ hy₁ y₂ hy₂ hcid
    rcases mem_blobsInsert s b y₁ hy₁ with ⟨h₁, hk₁⟩ | h₁ <;>
      rcases mem_blobsInsert s b y₂ hy₂ with ⟨h₂, hk₂⟩ | h₂
    · exact hc y₁ h₁ y₂ h₂ hcid
    · have := hcond y₁ h₁ (by rw [hcid, h₂.2.1])
      exact ⟨this.1.trans h₂.2.2.1.symm, this.2.trans h₂.2.2.2.1.symm⟩
    · have := hcond y₂ h₂ (by rw [← hcid, h₁.2.1])
      exact ⟨(this.1.trans h₁.2.2.1.symm).symm, (this.2.trans h₁.2.2.2.1.symm).symm⟩
    · exact ⟨h₁.2.2.1.trans h₂.2.2.1.symm, h₁.2.2.2.1.trans h₂.2.2.2.1.symm⟩
  · intro y hy
    rcases mem_blobsInsert s b y hy with ⟨h, _⟩ | h
    · exact hn y h
    · exact ⟨by rw [h.2.2.2.1, normStr_idem], by rw [h.2.2.2.2.1, normStr_idem],
             by rw [h.2.2.2.2.2, normStr_idem]⟩

/-! ### Branch equations for `processBlob` -/

lemma processBlob_dedup (env : BlobEnv) (hyd : Bool) (s : BlobsTable)
    (postUri : String) (ref : BlobReference) (e : BlobRow)
    (hfind : findByCid s ref.cid = some e) :
    processBlob env hyd s postUri ref =
      (blobsInsert s
        { post_uri := postUri, blob_cid := ref.cid, sha256 := e.sha256,
          phash := e.phash, storage_path := e.storage_path,
          mimetype := e.mimetype }, {}) := by
  simp only [processBlob, hfind]

lemma processBlob_resolve_fail (env : BlobEnv) (hyd : Bool) (s : BlobsTable)
    (postUri : String) (ref : BlobReference)
    (hfind : findByCid s ref.cid = none)
    (hres : env.resolvePds (parseBlobUriDid postUri) = none) :
    processBlob env hyd s postUri ref = (s, { resolves := 1 }) := by
  simp only [processBlob, hfind, hres]

lemma processBlob_fetch_fail (env : BlobEnv) (hyd : Bool) (s : BlobsTable)
    (postUri : String) (ref : BlobReference) (p : String)
    (hfind : findByCid s ref.cid = none)
    (hres : env.resolvePds (parseBlobUriDid postUri) = some p)
    (hfetch : env.fetchBlob p (parseBlobUriDid postUri) ref.cid = none) :
    processBlob env hyd s postUri ref = (s, { resolves := 1, fetches := 1 }) := by
  simp only [processBlob, hfind, hres, hfetch]

lemma processBlob_fresh (env : BlobEnv) (hyd : Bool) (s : BlobsTable)
    (postUri : String) (ref : BlobReference) (p : String) (bytes : List Nat)
    (hfind : findByCid s ref.cid = none)
    (hres : env.resolvePds (parseBlobUriDid postUri) = some p)
    (hfetch : env.fetchBlob p (parseBlobUriDid postUri) ref.cid = some bytes) :
    processBlob env hyd s postUri ref =
      (blobsInsert s
        { post_uri := postUri, blob_cid := ref.cid,
          sha256 := (computeBlobHashes env bytes ref.mimeType).1,
          phash := (computeBlobHashes env bytes ref.mimeType).2,
          storage_path :=
            if hyd then some (env.storeBlob ref.cid bytes ref.mimeType) else none,
          mimetype := ref.mimeType },
       { resolves := 1, fetches := 1 }) := by
  simp only [processBlob, hfind, hres, hfetch]

/-- **C6.** Content-addressing: for a reference whose cid already has a
Blob Record, `processBlob` performs no resolution and no byte fetch and
only copies the existing record's fingerprints and storage locator into a
row scoped to the new owner; and processing preserves the invariant that
any two Blob Records with the same content identifier carry identical
fingerprints (together with normalization of the stored optional
columns). -/
theorem blob_dedup_content_addressing (env : BlobEnv) (hyd : Bool) (s : BlobsTable)
    (postUri : String) (ref : BlobReference)
    (hc : cidConsistent s) (hn : normedTable s) :
    cidConsistent (processBlob env hyd s postUri ref).1 ∧
    normedTable (processBlob env hyd s postUri ref).1 ∧
    ∀ e, findByCid s ref.cid = some e →
      (processBlob env hyd s postUri ref).2 = { resolves := 0, fetches := 0 } ∧
      (processBlob env hyd s postUri ref).1 =
        blobsInsert s
          { post_uri := postUri, blob_cid := ref.cid, sha256 := e.sha256,
            phash := e.phash, storage_path := e.storage_path,
            mimetype := e.mimetype } := by
  cases hfind : findByCid s ref.cid with
  | some e =>
      have hmem : e ∈ s := List.mem_of_find?_eq_some hfind
      have hcid : e.blob_cid = ref.cid := by
        have := List.find?_some hfind
        simpa using this
      have heq := processBlob_dedup env hyd s postUri ref e hfind
      have hpres := blobsInsert_preserves s
        { post_uri := postUri, blob_cid := ref.cid, sha256 := e.sha256,
          phash := e.phash, storage_path := e.storage_path, mimetype := e.mimetype }
        hc hn ?_
      · refine ⟨by rw [heq]; exact hpres.1, by rw [heq]; exact hpres.2, ?_⟩
        intro e' he'
        obtain rfl : e = e' := by injection he'
        exact ⟨by rw [heq], by rw [heq]⟩
      · intro x hx hxcid
        have h2 := hc x hx e hmem (by rw [hxcid, hcid])
        have hne : normStr e.phash = e.phash := (hn e hmem).1
        exact ⟨h2.1, by rw [hne]; exact h2.2⟩
  | none =>
      have hcond : ∀ x ∈ s, x.blob_cid = ref.cid → False := by
        intro x hx hxcid
        exact findByCid_none_no_key s ref.cid hfind x hx hxcid
      cases hres : env.resolvePds (parseBlobUriDid postUri) with
      | none =>
          rw [processBlob_resolve_fail env hyd s postUri ref hfind hres]
          exact ⟨hc, hn, fun e he => absurd he (by simp)⟩
      | some p =>
          cases hfetch : env.fetchBlob p (parseBlobUriDid postUri) ref.cid with
          | none =>
              rw [processBlob_fetch_fail env hyd s postUri ref p hfind hres hfetch]
              exact ⟨hc, hn, fun e he => absurd he (by simp)⟩
          | some bytes =>
              rw [processBlob_fresh env hyd s postUri ref p bytes hfind hres hfetch]
              have hpres := blobsInsert_preserves s
                { post_uri := postUri, blob_cid := ref.cid,
                  sha256 := (computeBlobHashes env bytes ref.mimeType).1,
                  phash := (computeBlobHashes env bytes ref.mimeType).2,
                  storage_path :=
                    if hyd then some (env.storeBlob ref.cid bytes ref.mimeType) else none,
                  mimetype := ref.mimeType }
                hc hn (fun x hx hxcid => absurd hxcid (fun h => hcond x hx h))
              exact ⟨hpres.1, hpres.2, fun e he => absurd he (by simp)⟩

/-- Witness for C6: with one stored record for `bafyknown`, processing a
second owner's reference to the same cid copies the fingerprints without
any network call. -/
theorem blob_dedup_content_addressing_witness :
    (processBlob
        { resolvePds := fun _ => none, fetchBlob := fun _ _ _ => none,
          sha256 := fun _ => "", phashOf := fun _ => none,
          storeBlob := fun _ _ _ => "" }
        false
        [{ post_uri := "at://did:plc:a/app.bsky.feed.post/1", blob_cid := "bafyknown",
           sha256 := "deadbeef", phash := some "0f0f", storage_path := none,
           mimetype := some "image/jpeg" }]
        "at://did:plc:b/app.bsky.feed.post/9" ⟨"bafyknown", some "image/jpeg"⟩).2
      = { resolves := 0, fetches := 0 } := by
  refine ((blob_dedup_content_addressing _ false _ _ _ ?_ ?_).2.2
      { post_uri := "at://did:plc:a/app.bsky.feed.post/1", blob_cid := "bafyknown",
        sha256 := "deadbeef", phash := some "0f0f", storage_path := none,
        mimetype := some "image/jpeg" } (by decide)).1
  · intro r₁ h₁ r₂ h₂ _
    simp only [List.mem_singleton] at h₁ h₂
    subst h₁; subst h₂; exact ⟨rfl, rfl⟩
  · intro r h
    simp only [List.mem_singleton] at h
    subst h; exact ⟨rfl, rfl, rfl⟩

lemma normStr_some (s : String) : normStr (some s) = if s = "" then none else some s := by
  by_cases h : s = "" <;> simp [normStr, h]

/-- The blob-record argument built by the fetch branch of `processBlob`
(before the repository's `|| null` coercions). -/
def freshBlob (env : BlobEnv) (hyd : Bool) (owner : String) (r : BlobReference)
    (bytes : List Nat) : Blob :=
  { post_uri := owner, blob_cid := r.cid,
    sha256 := (computeBlobHashes env bytes r.mimeType).1,
    phash := (computeBlobHashes env bytes r.mimeType).2,
    storage_path := if hyd then some (env.storeBlob r.cid bytes r.mimeType) else none,
    mimetype := r.mimeType }

/-- A concrete environment in which every network call succeeds. -/
def demoEnv : BlobEnv :=
  { resolvePds := fun _ => some "https://pds.example.com"
    fetchBlob := fun _ _ _ => some [1, 2, 3]
    sha256 := fun _ => "sha-demo"
    phashOf := fun _ => some "ff00ff00"
    storeBlob := fun cid _ _ => "/data/blobs/" ++ cid }

/-- **C5 counterexample.** A content record owned by one subject embedding
two blob references with the same content identifier yields ONE stored
Blob Record, not two: both rows target the same `(post_uri, blob_cid)`
primary key, so the second processing upserts the row the first created.
(The single byte fetch the claim also asserts does hold.) -/
theorem same_cid_same_owner_not_two_rows :
    ((processBlobsRefs demoEnv false [] "at://did:plc:u/app.bsky.feed.post/1"
        [⟨"bafysame", some "image/jpeg"⟩, ⟨"bafysame", some "image/jpeg"⟩]).1.length = 1) ∧
    ((processBlobsRefs demoEnv false [] "at://did:plc:u/app.bsky.feed.post/1"
        [⟨"bafysame", some "image/jpeg"⟩, ⟨"bafysame", some "image/jpeg"⟩]).2.fetches = 1) := by
  decide

/-- **C5 (amended).** Processing two references with the same content
identifier for the same owner performs exactly one byte fetch and leaves
exactly one Blob Record keyed `(owner, cid)` in the store — the inserted
row, whose cryptographic fingerprint is the computed hash; the second
reference hits the dedup branch and upserts the identical row. -/
theorem same_cid_two_refs_one_row (env : BlobEnv) (hyd : Bool) (s : BlobsTable)
    (owner : String) (r : BlobReference) (p : String) (bytes : List Nat)
    (hnone : findByCid s r.cid = none)
    (hres : env.resolvePds (parseBlobUriDid owner) = some p)
    (hfetch : env.fetchBlob p (parseBlobUriDid owner) r.cid = some bytes) :
    processBlobsRefs env hyd s owner [r, r] =
      (s ++ [(freshBlob env hyd owner r bytes).toRow], { resolves := 1, fetches := 1 }) ∧
    ((s ++ [(freshBlob env hyd owner r bytes).toRow]).countP
        fun x => x.post_uri = owner ∧ x.blob_cid = r.cid) = 1 ∧
    (freshBlob env hyd owner r bytes).toRow.sha256 =
      (computeBlobHashes env bytes r.mimeType).1 := by
  have hnokey : ∀ x ∈ s,
      ¬ (x.post_uri = (freshBlob env hyd owner r bytes).post_uri ∧
         x.blob_cid = (freshBlob env hyd owner r bytes).blob_cid) := by
    intro x hx hk
    exact findByCid_none_no_key s r.cid hnone x hx hk.2
  have hstep1 : processBlob env hyd s owner r =
      (s ++ [(freshBlob env hyd owner r bytes).toRow], { resolves := 1, fetches := 1 }) := by
    have h1 := processBlob_fresh env hyd s owner r p bytes hnone hres hfetch
    have h2 := blobsInsert_append s (freshBlob env hyd owner r bytes) hnokey
    exact h1.trans (congrArg (fun t => (t, ({ resolves := 1, fetches := 1 } : BlobCounts))) h2)
  have hfind2 : findByCid (s ++ [(freshBlob env hyd owner r bytes).toRow]) r.cid
      = some (freshBlob env hyd owner r bytes).toRow := by
    unfold findByCid at hnone ⊢
    rw [List.find?_append, hnone]
    simp [List.find?_cons, Blob.toRow, freshBlob]
  have hnorm : normStr (freshBlob env hyd owner r bytes).toRow.phash
        = (freshBlob env hyd owner r bytes).toRow.phash ∧
      normStr (freshBlob env hyd owner r bytes).toRow.storage_path
        = (freshBlob env hyd owner r bytes).toRow.storage_path ∧
      normStr (freshBlob env hyd owner r bytes).toRow.mimetype
        = (freshBlob env hyd owner r bytes).toRow.mimetype := by
    refine ⟨?_, ?_, ?_⟩ <;> simp [Blob.toRow, normStr_idem]
  have hmem : (freshBlob env hyd owner r bytes).toRow
      ∈ s ++ [(freshBlob env hyd owner r bytes).toRow] := by simp
  have hvals : ∀ x ∈ s ++ [(freshBlob env hyd owner r bytes).toRow],
      x.post_uri = (freshBlob env hyd owner r bytes).toRow.post_uri →
      x.blob_cid = (freshBlob env hyd owner r bytes).toRow.blob_cid →
      x = (freshBlob env hyd owner r bytes).toRow := by
    intro x hx h1 h2
    rcases List.mem_append.mp hx with hx' | hx'
    · have hne := findByCid_none_no_key s r.cid hnone x hx'
      have hrc : (freshBlob env hyd owner r bytes).toRow.blob_cid = r.cid := rfl
      rw [hrc] at h2
      exact absurd h2 hne
    · simpa using hx'
  have hstep2 : processBlob env hyd (s ++ [(freshBlob env hyd owner r bytes).toRow]) owner r =
      (s ++ [(freshBlob env hyd owner r bytes).toRow], {}) := by
    rw [processBlob_dedup env hyd (s ++ [(freshBlob env hyd owner r bytes).toRow])
      owner r (freshBlob env hyd owner r bytes).toRow hfind2]
    have hins := blobsInsert_self_copy (s ++ [(freshBlob env hyd owner r bytes).toRow])
      (freshBlob env hyd owner r bytes).toRow hnorm hmem hvals
    exact congrArg (fun t => (t, ({} : BlobCounts))) hins
  refine ⟨?_, ?_, rfl⟩
  · simp only [processBlobsRefs, hstep1, hstep2]
  · rw [List.countP_append]
    have h0 : (s.countP fun x => x.post_uri = owner ∧ x.blob_cid = r.cid) = 0 := by
      rw [List.countP_eq_zero]
      intro a ha
      simp only [decide_eq_true_eq, not_and]
      intro _ hbc
      exact findByCid_none_no_key s r.cid hnone a ha hbc
    rw [h0]
    simp [List.countP_cons, Blob.toRow, freshBlob]

/-- Witness for the amended C5: concretely, the two same-cid references
leave exactly one row keyed by the owner and the cid. -/
theorem same_cid_two_refs_one_row_witness :
    (([] ++ [(freshBlob demoEnv false "at://did:plc:u/app.bsky.feed.post/1"
        ⟨"bafysame", some "image/jpeg"⟩ [1, 2, 3]).toRow]).countP
      fun x : BlobRow => x.post_uri = "at://did:plc:u/app.bsky.feed.post/1" ∧
        x.blob_cid = "bafysame") = 1 :=
  (same_cid_two_refs_one_row demoEnv false [] "at://did:plc:u/app.bsky.feed.post/1"
    ⟨"bafysame", some "image/jpeg"⟩ "https://pds.example.com" [1, 2, 3]
    rfl rfl rfl).2.1

/-- **C7.** Download-switch safety: the `HYDRATE_BLOBS` switch parses to
`false` when the variable is absent; with the switch off a successfully
processed fresh blob is stored with the computed sha256 fingerprint and a
null storage locator (and a locator-free store stays locator-free through
any processing step, dedup copies included); with the switch on the row
carries both the fingerprint and the storage backend's locator. -/
theorem download_switch_safety (env : BlobEnv) (s : BlobsTable) (postUri : String)
    (ref : BlobReference) (p : String) (bytes : List Nat)
    (hnone : findByCid s ref.cid = none)
    (hres : env.resolvePds (parseBlobUriDid postUri) = some p)
    (hfetch : env.fetchBlob p (parseBlobUriDid postUri) ref.cid = some bytes) :
    parseHydrateBlobs none = false ∧
    (processBlob env false s postUri ref).1 =
      s ++ [{ post_uri := postUri, blob_cid := ref.cid,
              sha256 := (computeBlobHashes env bytes ref.mimeType).1,
              phash := normStr (computeBlobHashes env bytes ref.mimeType).2,
              storage_path := none, mimetype := normStr ref.mimeType }] ∧
    (env.storeBlob ref.cid bytes ref.mimeType ≠ "" →
      (processBlob env true s postUri ref).1 =
        s ++ [{ post_uri := postUri, blob_cid := ref.cid,
                sha256 := (computeBlobHashes env bytes ref.mimeType).1,
                phash := normStr (computeBlobHashes env bytes ref.mimeType).2,
                storage_path := some (env.storeBlob ref.cid bytes ref.mimeType),
                mimetype := normStr ref.mimeType }]) ∧
    (∀ s' : BlobsTable, (∀ x ∈ s', x.storage_path = none) →
      ∀ y ∈ (processBlob env false s' postUri ref).1, y.storage_path = none) := by
  have hnokeyF : ∀ hyd : Bool, ∀ x ∈ s,
      ¬ (x.post_uri = (freshBlob env hyd postUri ref bytes).post_uri ∧
         x.blob_cid = (freshBlob env hyd postUri ref bytes).blob_cid) :=
    fun _ x hx hk => findByCid_none_no_key s ref.cid hnone x hx hk.2
  refine ⟨rfl, ?_, ?_, ?_⟩
  · exact (congrArg Prod.fst
        (processBlob_fresh env false s postUri ref p bytes hnone hres hfetch)).trans
      (blobsInsert_append s (freshBlob env false postUri ref bytes) (hnokeyF false))
  · intro hloc
    have h2 := blobsInsert_append s (freshBlob env true postUri ref bytes) (hnokeyF true)
    have h3 : (freshBlob env true postUri ref bytes).toRow =
        { post_uri := postUri, blob_cid := ref.cid,
          sha256 := (computeBlobHashes env bytes ref.mimeType).1,
          phash := normStr (computeBlobHashes env bytes ref.mimeType).2,
          storage_path := some (env.storeBlob ref.cid bytes ref.mimeType),
          mimetype := normStr ref.mimeType } := by
      simp [Blob.toRow, freshBlob, normStr_some, hloc]
    rw [h3] at h2
    exact (congrArg Prod.fst
        (processBlob_fresh env true s postUri ref p bytes hnone hres hfetch)).trans h2
  · intro s' hall y hy
    cases hfind' : findByCid s' ref.cid with
    | some e =>
        rw [processBlob_dedup env false s' postUri ref e hfind'] at hy
        rcases mem_blobsInsert _ _ _ hy with ⟨h1, _⟩ | h2
        · exact hall y h1
        · have he : e ∈ s' := List.mem_of_find?_eq_some hfind'
          rw [h2.2.2.2.2.1, hall e he]
          rfl
    | none =>
        rw [processBlob_fresh env false s' postUri ref p bytes hfind' hres hfetch] at hy
        rcases mem_blobsInsert _ _ _ hy with ⟨h1, _⟩ | h2
        · exact hall y h1
        · rw [h2.2.2.2.2.1]
          rfl

/-- Witness for C7: with the switch off, the concrete processed blob is
stored with its sha256 and no locator. -/
theorem download_switch_safety_witness :
    (processBlob demoEnv false [] "at://did:plc:u/app.bsky.feed.post/1"
        ⟨"bafyfresh", some "image/jpeg"⟩).1
      = [{ post_uri := "at://did:plc:u/app.bsky.feed.post/1", blob_cid := "bafyfresh",
           sha256 := "sha-demo", phash := some "ff00ff00",
           storage_path := none, mimetype := some "image/jpeg" }] :=
  ((download_switch_safety demoEnv [] "at://did:plc:u/app.bsky.feed.post/1"
      ⟨"bafyfresh", some "image/jpeg"⟩ "https://pds.example.com" [1, 2, 3]
      rfl rfl rfl).2.1).trans (by decide)

/-- **C9 counterexample.** The origin resolution is *not* cached per
subject: processing two distinct-cid references owned by the same subject
from an empty store performs two PLC resolution calls, not at most one. -/
theorem resolution_not_cached_per_subject :
    (processBlobsRefs demoEnv false [] "at://did:plc:u/app.bsky.feed.post/1"
        [⟨"bafycid1", some "image/jpeg"⟩, ⟨"bafycid2", some "image/png"⟩]).2.resolves = 2 := by
  decide

/-- **C9 (amended).** The processor resolves the owning subject's PDS
endpoint once per reference whose cid misses the store (no per-subject
cache); a reference whose cid is already stored triggers no resolution;
and a resolution failure aborts only the current blob — the store is
untouched for it and the remaining references are still processed. -/
theorem resolution_per_blob_failure_isolated (env : BlobEnv) (hyd : Bool)
    (s : BlobsTable) (postUri : String) (ref : BlobReference)
    (rs : List BlobReference)
    (hnone : findByCid s ref.cid = none) :
    (processBlob env hyd s postUri ref).2.resolves = 1 ∧
    (∀ s' : BlobsTable, ∀ e, findByCid s' ref.cid = some e →
        (processBlob env hyd s' postUri ref).2.resolves = 0) ∧
    (env.resolvePds (parseBlobUriDid postUri) = none →
        processBlobsRefs env hyd s postUri (ref :: rs) =
          ((processBlobsRefs env hyd s postUri rs).1,
           { resolves := 1 + (processBlobsRefs env hyd s postUri rs).2.resolves,
             fetches := (processBlobsRefs env hyd s postUri rs).2.fetches })) := by
  refine ⟨?_, ?_, ?_⟩
  · cases hres : env.resolvePds (parseBlobUriDid postUri) with
    | none => rw [processBlob_resolve_fail env hyd s postUri ref hnone hres]
    | some p =>
        cases hfetch : env.fetchBlob p (parseBlobUriDid postUri) ref.cid with
        | none => rw [processBlob_fetch_fail env hyd s postUri ref p hnone hres hfetch]
        | some bytes => rw [processBlob_fresh env hyd s postUri ref p bytes hnone hres hfetch]
  · intro s' e he
    rw [processBlob_dedup env hyd s' postUri ref e he]
  · intro hres
    have hstep := processBlob_resolve_fail env hyd s postUri ref hnone hres
    simp only [processBlobsRefs, hstep, Nat.zero_add]

/-- Witness for the amended C9: a fresh cid triggers exactly one
resolution call. -/
theorem resolution_per_blob_failure_isolated_witness :
    (processBlob demoEnv false [] "at://did:plc:u/app.bsky.feed.post/1"
        ⟨"bafycid1", some "image/jpeg"⟩).2.resolves = 1 :=
  (resolution_per_blob_failure_isolated demoEnv false [] "at://did:plc:u/app.bsky.feed.post/1"
    ⟨"bafycid1", some "image/jpeg"⟩ [] rfl).1

/-! ## The retry policy

From `withRetry`, `RetryConfig` and `RetryError` in `src/utils/retry.ts`.
The operation is modelled as `op : Nat → Except E T`, the outcome of its
n-th execution (1-indexed).  The value returned pairs the overall outcome
with the list of back-off sleeps performed, in order. -/

/-- The `RetryConfig` interface, with the source's defaults. -/
structure RetryConfig (E : Type) where
  maxAttempts : Nat := 3
  initialDelay : Nat := 1000
  maxDelay : Nat := 30000
  backoffMultiplier : Nat := 2
  retryableErrors : List (E → Bool) := [fun _ => true]

/-- `RetryError(message, attempts, lastError)`; `lastError` is `none`
only on the degenerate `maxAttempts < 1` path, where the source's
`lastError!` non-null assertion reads an unassigned variable. -/
structure RetryError (E : Type) where
  attempts : Nat
  lastError : Option E

/-- The body of `withRetry`'s `for` loop, from attempt `a` with the
current `delay`, accumulating sleeps: try `op a`; on success return the
result; on a non-retryable failure or with the attempt ceiling reached,
throw the wrapped error; otherwise sleep `delay` and continue with
`min(delay * backoffMultiplier, maxDelay)`. -/
def retryGo {E T : Type} (op : Nat → Except E T) (retryable : List (E → Bool))
    (maxA maxD mult : Nat) : Nat → Nat → List Nat →
    Except (RetryError E) T × List Nat
  | a, delay, sleeps =>
      match op a with
      | .ok v => (.ok v, sleeps)
      | .error e =>
          if h : (retryable.any fun c => c e) = false ∨ maxA ≤ a then
            (.error ⟨a, some e⟩, sleeps)
          else
            retryGo op retryable maxA maxD mult
              (a + 1) (min (delay * mult) maxD) (sleeps ++ [delay])
termination_by a _ _ => maxA + 1 - a
decreasing_by
  rcases not_or.mp h with ⟨-, hb⟩
  omega

/-- `withRetry(fn, config)`: the loop from attempt 1 at `initialDelay`;
when `maxAttempts < 1` the loop body never runs and the trailing
`throw new RetryError(..., maxAttempts, lastError!)` fires. -/
def withRetry {E T : Type} (cfg : RetryConfig E) (op : Nat → Except E T) :
    Except (RetryError E) T × List Nat :=
  if cfg.maxAttempts < 1 then (.error ⟨cfg.maxAttempts, none⟩, [])
  else retryGo op cfg.retryableErrors cfg.maxAttempts cfg.maxDelay
    cfg.backoffMultiplier 1 cfg.initialDelay []

/-- The delay before the (m+1)-th sleep, starting from `d`: each step
multiplies by `mult` and caps at `cap`. -/
def delayIter (cap mult : Nat) : Nat → Nat → Nat
  | d, 0 => d
  | d, m + 1 => delayIter cap mult (min (d * mult) cap) m

lemma retryGo_eq {E T : Type} (op : Nat → Except E T) (retryable : List (E → Bool))
    (maxA maxD mult a delay : Nat) (sleeps : List Nat) :
    retryGo op retryable maxA maxD mult a delay sleeps =
      match op a with
      | .ok v => (.ok v, sleeps)
      | .error e =>
          if (retryable.any fun c => c e) = false ∨ maxA ≤ a then
            (.error ⟨a, some e⟩, sleeps)
          else
            retryGo op retryable maxA maxD mult
              (a + 1) (min (delay * mult) maxD) (sleeps ++ [delay]) := by
  rw [retryGo]
  cases op a with
  | ok v => rfl
  | error e => rfl

lemma retryGo_ok {E T : Type} {op : Nat → Except E T} {retryable : List (E → Bool)}
    {maxA maxD mult a delay : Nat} {sleeps : List Nat} {v : T}
    (hok : op a = .ok v) :
    retryGo op retryable maxA maxD mult a delay sleeps = (.ok v, sleeps) := by
  rw [retryGo_eq, hok]

lemma retryGo_stop {E T : Type} {op : Nat → Except E T} {retryable : List (E → Bool)}
    {maxA maxD mult a delay : Nat} {sleeps : List Nat} {e : E}
    (herr : op a = .error e)
    (hc : (retryable.any fun c => c e) = false ∨ maxA ≤ a) :
    retryGo op retryable maxA maxD mult a delay sleeps =
      (.error ⟨a, some e⟩, sleeps) := by
  rw [retryGo_eq, herr]
  exact if_pos hc

lemma retryGo_retry {E T : Type} {op : Nat → Except E T} {retryable : List (E → Bool)}
    {maxA maxD mult a delay : Nat} {sleeps : List Nat} {e : E}
    (herr : op a = .error e)
    (hc : ¬ ((retryable.any fun c => c e) = false ∨ maxA ≤ a)) :
    retryGo op retryable maxA maxD mult a delay sleeps =
      retryGo op retryable maxA maxD mult
        (a + 1) (min (delay * mult) maxD) (sleeps ++ [delay]) := by
  rw [retryGo_eq, herr]
  exact if_neg hc

/-- Running the loop across `m` consecutive retryable failures advances
the attempt counter by `m`, evolves the delay by `delayIter`, and sleeps
exactly the delays so far. -/
lemma retryGo_skip {E T : Type} (op : Nat → Except E T) (retryable : List (E → Bool))
    (maxA maxD mult : Nat) (m : Nat) :
    ∀ a delay sleeps,
      (∀ i, a ≤ i → i < a + m →
        ∃ e, op i = .error e ∧ (retryable.any fun c => c e) = true) →
      a + m ≤ maxA →
      retryGo op retryable maxA maxD mult a delay sleeps =
        retryGo op retryable maxA maxD mult (a + m) (delayIter maxD mult delay m)
          (sleeps ++ (List.range m).map (delayIter maxD mult delay)) := by
  induction m with
  | zero => intro a delay sleeps _ _; simp [delayIter]
  | succ n ih =>
      intro a delay sleeps hfail hle
      obtain ⟨e, he, hr⟩ := hfail a le_rfl (by omega)
      have hcond : ¬ (((retryable.any fun c => c e) = false) ∨ maxA ≤ a) := by
        rintro (hf | hge)
        · rw [hr] at hf; exact Bool.noConfusion hf
        · omega
      rw [retryGo_retry he hcond]
      rw [ih (a + 1) (min (delay * mult) maxD) (sleeps ++ [delay])
        (fun i h1 h2 => hfail i (by omega) (by omega)) (by omega)]
      have ha : a + 1 + n = a + (n + 1) := by omega
      rw [ha]
      have hsl : (sleeps ++ [delay]) ++
            (List.range n).map (delayIter maxD mult (min (delay * mult) maxD))
          = sleeps ++ (List.range (n + 1)).map (delayIter maxD mult delay) := by
        rw [List.append_assoc]
        congr 1
        rw [List.range_succ_eq_map, List.map_cons, List.map_map]
        rfl
      rw [hsl]
      rfl

/-- **C8.** The retry policy: starting from attempt 1, `withRetry`
re-executes the operation only across retryable failures below the
attempt ceiling, sleeping delays that start at `initialDelay` and grow by
`backoffMultiplier` capped at `maxDelay`; a successful attempt returns
that attempt's result unchanged (having slept exactly the preceding
back-offs); and the first non-retryable failure, or a failure at the
ceiling, raises a `RetryError` carrying the attempt count and that last
underlying error. -/
theorem withRetry_policy {E T : Type} (cfg : RetryConfig E) (op : Nat → Except E T)
    (hmax : 1 ≤ cfg.maxAttempts) :
    (∀ k v, 1 ≤ k → k ≤ cfg.maxAttempts → op k = .ok v →
      (∀ i, 1 ≤ i → i < k →
        ∃ e, op i = .error e ∧ (cfg.retryableErrors.any fun c => c e) = true) →
      withRetry cfg op =
        (.ok v, (List.range (k - 1)).map
          (delayIter cfg.maxDelay cfg.backoffMultiplier cfg.initialDelay))) ∧
    (∀ k e, 1 ≤ k → k ≤ cfg.maxAttempts → op k = .error e →
      ((cfg.retryableErrors.any fun c => c e) = false ∨ k = cfg.maxAttempts) →
      (∀ i, 1 ≤ i → i < k →
        ∃ e', op i = .error e' ∧ (cfg.retryableErrors.any fun c => c e') = true) →
      (withRetry cfg op).1 = .error ⟨k, some e⟩) := by
  have hnot : ¬ cfg.maxAttempts < 1 := by omega
  constructor
  · intro k v hk1 hkm hok hfail
    unfold withRetry
    rw [if_neg hnot]
    rw [retryGo_skip op cfg.retryableErrors cfg.maxAttempts cfg.maxDelay
      cfg.backoffMultiplier (k - 1) 1 cfg.initialDelay []
      (fun i h1 h2 => hfail i h1 (by omega)) (by omega)]
    have h1k : 1 + (k - 1) = k := by omega
    rw [h1k, retryGo_ok hok, List.nil_append]
  · intro k e hk1 hkm herr hstop hfail
    unfold withRetry
    rw [if_neg hnot]
    rw [retryGo_skip op cfg.retryableErrors cfg.maxAttempts cfg.maxDelay
      cfg.backoffMultiplier (k - 1) 1 cfg.initialDelay []
      (fun i h1 h2 => hfail i h1 (by omega)) (by omega)]
    have h1k : 1 + (k - 1) = k := by omega
    have hcond : ((cfg.retryableErrors.any fun c => c e) = false) ∨ cfg.maxAttempts ≤ k := by
      rcases hstop with h | h
      · exact Or.inl h
      · exact Or.inr (by omega)
    rw [h1k, retryGo_stop herr hcond]

/-- Witness for C8: one retryable failure then success returns the
success and sleeps exactly the initial delay. -/
theorem withRetry_policy_witness :
    withRetry ({ retryableErrors := [fun e => e == 0] } : RetryConfig Nat)
        (fun n => if n = 1 then .error 0 else .ok 42)
      = (.ok 42, [1000]) :=
  ((withRetry_policy ({ retryableErrors := [fun e => e == 0] } : RetryConfig Nat)
      (fun n => if n = 1 then .error 0 else .ok 42) (by decide)).1 2 42
    (by decide) (by decide) rfl
    (fun i h1 h2 => by
      have hi : i = 1 := by omega
      subst hi
      exact ⟨0, rfl, rfl⟩)).trans rfl

/-! ## `extractBlobReferences` over raw JavaScript values

From the `extractBlobReferences` and `extractCid` of
`src/blobs/processor.ts` (the revision handling both plain `$link`
references and CID class objects).  The input is arbitrary decoded JSON /
API data, so it is modelled as a JavaScript value: property access on
`null`/`undefined` throws a `TypeError` (`Except Unit`), on anything else
it is total; `extractCid`'s `typeof ref.toString === 'function'` test is
true for every non-nullish value (objects and boxed primitives alike), so
it reduces to the `ref.code !== undefined` test. -/

/-- A JavaScript value, as far as `extractBlobReferences` inspects it. -/
inductive JSValue where
  | vnull
  | vundefined
  | vbool (b : Bool)
  | vnum (n : Int)
  | vstr (s : String)
  | varr (elems : List JSValue)
  | vobj (fields : List (String × JSValue))
  /-- A CID class object from `@atproto/api`: it has a defined numeric
  `code` field and a `toString` that yields the cid string. -/
  | vcid (s : String)

/-- JavaScript truthiness. -/
def truthy : JSValue → Bool
  | .vnull => false
  | .vundefined => false
  | .vbool b => b
  | .vnum n => n ≠ 0
  | .vstr s => s ≠ ""
  | .varr _ => true
  | .vobj _ => true
  | .vcid _ => true

/-- Is the value `null` or `undefined`? -/
def nullish : JSValue → Bool
  | .vnull => true
  | .vundefined => true
  | _ => false

/-- Property read on a non-nullish receiver: objects look their fields
up (absent → `undefined`), a CID object exposes its numeric `code`,
everything else has no own properties we inspect. -/
def getProp : JSValue → String → JSValue
  | .vobj fields, name =>
      (((fields.find? fun kv => kv.1 = name).map Prod.snd).getD .vundefined)
  | .vcid _, name => if name = "code" then .vnum 85 else .vundefined
  | _, _ => .vundefined

/-- `x.name` in JavaScript: throws a TypeError when `x` is nullish. -/
def getPropEx (v : JSValue) (name : String) : Except Unit JSValue :=
  if nullish v then .error () else .ok (getProp v name)

/-- `ref.code !== undefined` (the `typeof ref.toString === 'function'`
conjunct holds for every non-nullish value). -/
def codeDefined : JSValue → Bool
  | .vcid _ => true
  | .vobj fields =>
      match (fields.find? fun kv => kv.1 = "code").map Prod.snd with
      | some .vundefined => false
      | some _ => true
      | none => false
  | _ => false

/-- `ref.toString()`, for the values `extractCid` can reach it on (a CID
object or a plain object); other cases are unreachable there because
`codeDefined` is false for them. -/
def jsToString : JSValue → String
  | .vcid s => s
  | .vobj _ => "[object Object]"
  | .vstr s => s
  | _ => ""

/-- The `extractCid` helper: `null` for a falsy reference; `toString()`
when `code` is defined (CID object); otherwise the truthy `$link` field
value; else `null`. -/
def extractCid (ref : JSValue) : Option JSValue :=
  if ¬ truthy ref then none
  else if codeDefined ref then some (.vstr (jsToString ref))
  else
    let link := getProp ref "$link"
    if truthy link then some link else none

/-- A pushed `{cid, mimeType}` reference (the fields carry whatever
JavaScript values the source pushed). -/
structure JSRef where
  cid : JSValue
  mimeType : JSValue

/-- One iteration of the image loops: `img.image?.ref` (the `img.image`
access throws on a nullish `img`), then `extractCid`, then push with
`img.image.mimeType`. -/
def imageRef (img : JSValue) : Except Unit (Option JSRef) :=
  if nullish img then .error ()
  else
    let image := getProp img "image"
    let ref := if nullish image then JSValue.vundefined else getProp image "ref"
    match extractCid ref with
    | none => .ok none
    | some c => .ok (some ⟨c, getProp image "mimeType"⟩)

/-- The image loops of `extractBlobReferences`, in iteration order, with
a thrown TypeError propagating out. -/
def imagesRefs : List JSValue → Except Unit (List JSRef)
  | [] => .ok []
  | img :: rest =>
      match imageRef img with
      | .error e => .error e
      | .ok r =>
          match imagesRefs rest with
          | .error e => .error e
          | .ok rs => .ok (match r with | some x => x :: rs | none => rs)

/-- `Array.isArray`. -/
def asArr : JSValue → Option (List JSValue)
  | .varr l => some l
  | _ => none

/-- `if (v && Array.isArray(v)) { loop }`: the guarded image loop shared
by the `images` and `media.images` blocks. -/
def arrPart (v : JSValue) : Except Unit (List JSRef) :=
  if truthy v then
    match asArr v with
    | some l => imagesRefs l
    | none => pure []
  else pure []

/-- The loop body of `extractBlobReferences` for one embed: the first
`embed.images` access throws on a nullish embed; then the `images`
block, the `media.images` block and the `video` block, in order. -/
def embedRefs (embed : JSValue) : Except Unit (List JSRef) :=
  if nullish embed then .error ()
  else
    match arrPart (getProp embed "images") with
    | .error e => .error e
    | .ok part1 =>
        match arrPart (if nullish (getProp embed "media") then JSValue.vundefined
            else getProp (getProp embed "media") "images") with
        | .error e => .error e
        | .ok part2 =>
            let video := getProp embed "video"
            let vref := if nullish video then JSValue.vundefined else getProp video "ref"
            let part3 :=
              if truthy vref then
                match extractCid vref with
                | some c => [(⟨c, getProp video "mimeType"⟩ : JSRef)]
                | none => []
              else []
            .ok (part1 ++ part2 ++ part3)

/-- The embed loop. -/
def extractGo : List JSValue → Except Unit (List JSRef)
  | [] => .ok []
  | e :: rest =>
      match embedRefs e with
      | .error err => .error err
      | .ok r =>
          match extractGo rest with
          | .error err => .error err
          | .ok rs => .ok (r ++ rs)

/-- `BlobProcessor.extractBlobReferences`: a falsy or non-array input
returns the empty list, an array is folded embed by embed. -/
def extractBlobReferences : JSValue → Except Unit (List JSRef)
  | .varr embeds => extractGo embeds
  | _ => .ok []

/-! ### The throw-free reading of the extraction, for the amended C10 -/

/-- Total (non-throwing) image loop: identical to `imagesRefs` except
that a nullish array element contributes nothing instead of throwing. -/
def specImageRefs : List JSValue → List JSRef
  | [] => []
  | img :: rest =>
      let image := getProp img "image"
      let ref := if nullish image then JSValue.vundefined else getProp image "ref"
      match extractCid ref with
      | none => specImageRefs rest
      | some c => ⟨c, getProp image "mimeType"⟩ :: specImageRefs rest

/-- Total variant of `arrPart`. -/
def specArrPart (v : JSValue) : List JSRef :=
  if truthy v then
    match asArr v with
    | some l => specImageRefs l
    | none => []
  else []

/-- Total variant of `embedRefs`: the references whose CID `extractCid`
resolves, collected in the order images, then media.images, then
video. -/
def specEmbedRefs (embed : JSValue) : List JSRef :=
  let part1 := specArrPart (getProp embed "images")
  let part2 := specArrPart (if nullish (getProp embed "media") then JSValue.vundefined
      else getProp (getProp embed "media") "images")
  let video := getProp embed "video"
  let vref := if nullish video then JSValue.vundefined else getProp video "ref"
  let part3 :=
    if truthy vref then
      match extractCid vref with
      | some c => [(⟨c, getProp video "mimeType"⟩ : JSRef)]
      | none => []
    else []
  part1 ++ part2 ++ part3

lemma imagesRefs_ok (l : List JSValue) (h : ∀ img ∈ l, nullish img = false) :
    imagesRefs l = .ok (specImageRefs l) := by
  induction l with
  | nil => rfl
  | cons img rest ih =>
      have himg : nullish img = false := h img (by simp)
      have hrest := ih fun x hx => h x (by simp [hx])
      have hne : ¬ (nullish img = true) := by rw [himg]; exact Bool.noConfusion
      simp only [imagesRefs, imageRef, specImageRefs]
      rw [if_neg hne, hrest]
      cases extractCid (if nullish (getProp img "image") = true then JSValue.vundefined
        else getProp (getProp img "image") "ref") <;> rfl

lemma arrPart_ok (v : JSValue) (h : ∀ l, asArr v = some l → ∀ img ∈ l, nullish img = false) :
    arrPart v = .ok (specArrPart v) := by
  unfold arrPart specArrPart
  by_cases ht : truthy v = true
  · rw [if_pos ht, if_pos ht]
    cases hv : asArr v with
    | some l => exact imagesRefs_ok l (h l hv)
    | none => rfl
  · rw [if_neg ht, if_neg ht]
    rfl

lemma embedRefs_ok (embed : JSValue) (he : nullish embed = false)
    (h1 : ∀ l, asArr (getProp embed "images") = some l → ∀ img ∈ l, nullish img = false)
    (h2 : ∀ l, asArr (if nullish (getProp embed "media") then JSValue.vundefined
        else getProp (getProp embed "media") "images") = some l →
        ∀ img ∈ l, nullish img = false) :
    embedRefs embed = .ok (specEmbedRefs embed) := by
  have hne : ¬ (nullish embed = true) := by rw [he]; exact Bool.noConfusion
  unfold embedRefs specEmbedRefs
  rw [if_neg hne, arrPart_ok _ h1, arrPart_ok _ h2]

/-- **C10 counterexample.** `extractBlobReferences` is not total: an
embeds array containing `null` makes the `embed.images` access throw a
TypeError instead of returning a list. -/
theorem extract_throws_on_null_element :
    extractBlobReferences (.varr [.vnull]) = .error () := rfl

/-- **C10 (amended).** `extractBlobReferences` returns the empty list for
every non-array input (null, undefined, primitives, objects), and on an
array whose embeds — and whose embeds' `images` and `media.images` array
elements — are not null/undefined it never throws and returns exactly
the references whose CID `extractCid` resolves (a plain truthy `$link` or
a CID object), collected per embed in the order images, then
media.images, then video. -/
theorem extract_refs_shape (v : JSValue) (embeds : List JSValue)
    (hemb : ∀ e ∈ embeds, nullish e = false)
    (h1 : ∀ e ∈ embeds, ∀ l, asArr (getProp e "images") = some l →
        ∀ img ∈ l, nullish img = false)
    (h2 : ∀ e ∈ embeds, ∀ l, asArr (if nullish (getProp e "media") then JSValue.vundefined
        else getProp (getProp e "media") "images") = some l →
        ∀ img ∈ l, nullish img = false) :
    (asArr v = none → extractBlobReferences v = .ok []) ∧
    extractBlobReferences (.varr embeds) = .ok (embeds.flatMap specEmbedRefs) := by
  constructor
  · intro hv
    cases v with
    | varr l => exact absurd hv (by simp [asArr])
    | vnull => rfl
    | vundefined => rfl
    | vbool b => rfl
    | vnum n => rfl
    | vstr s => rfl
    | vobj fields => rfl
    | vcid s => rfl
  · show extractGo embeds = _
    induction embeds with
    | nil => rfl
    | cons e rest ih =>
        have hee := embedRefs_ok e (hemb e (by simp)) (h1 e (by simp)) (h2 e (by simp))
        have hrest := ih (fun x hx => hemb x (by simp [hx]))
          (fun x hx => h1 x (by simp [hx])) (fun x hx => h2 x (by simp [hx]))
        simp only [extractGo, List.flatMap_cons]
        rw [hee, hrest]

/-- Witness for the amended C10: a concrete embed with one `$link` image,
one `media.images` image and a CID-object video extracts the three
references in order. -/
theorem extract_refs_shape_witness :
    extractBlobReferences (.varr [.vobj
      [("images", .varr [.vobj [("image", .vobj
          [("ref", .vobj [("$link", .vstr "bafyimg1")]),
           ("mimeType", .vstr "image/jpeg")])]]),
       ("media", .vobj [("images", .varr [.vobj [("image", .vobj
          [("ref", .vobj [("$link", .vstr "bafyimg2")]),
           ("mimeType", .vstr "image/png")])]])]),
       ("video", .vobj [("ref", .vcid "bafyvid1"),
                        ("mimeType", .vstr "video/mp4")])]])
      = .ok ([.vobj
      [("images", .varr [.vobj [("image", .vobj
          [("ref", .vobj [("$link", .vstr "bafyimg1")]),
           ("mimeType", .vstr "image/jpeg")])]]),
       ("media", .vobj [("images", .varr [.vobj [("image", .vobj
          [("ref", .vobj [("$link", .vstr "bafyimg2")]),
           ("mimeType", .vstr "image/png")])]])]),
       ("video", .vobj [("ref", .vcid "bafyvid1"),
                        ("mimeType", .vstr "video/mp4")])]].flatMap specEmbedRefs) := by
  refine (extract_refs_shape JSValue.vnull _ ?_ ?_ ?_).2
  · intro e he
    rw [List.mem_singleton] at he
    subst he
    rfl
  · intro e he l hl img himg
    rw [List.mem_singleton] at he
    subst he
    injection hl with hl'
    subst hl'
    rw [List.mem_singleton] at himg
    subst himg
    rfl
  · intro e he l hl img himg
    rw [List.mem_singleton] at he
    subst he
    injection hl with hl'
    subst hl'
    rw [List.mem_singleton] at himg
    subst himg
    rfl

end Skywatch
